import Mathlib

/-!
# Verification of the safe command-generation and result-protocol layer
of the mcp-apple-notes server

This development embeds, as Lean functions over `List Char` / `String`,
the sanitizer and executor of `src/utils/applescript.ts` and the
result-decoding logic of each operation of
`src/services/appleNotesManager.ts`, and proves (or refutes) the frozen
claims about them.
-/

namespace MCPNotes

/-! ## Special characters, named to keep the escape tables readable -/

def bsC : Char := Char.ofNat 92

def dqC : Char := Char.ofNat 34

def sqC : Char := Char.ofNat 39

def nlC : Char := Char.ofNat 10

def crC : Char := Char.ofNat 13

def tabC : Char := Char.ofNat 9

def commaC : Char := Char.ofNat 44

/-! ## The sanitizer (`sanitizeForAppleScript`, applescript.ts lines 59-70)

The TypeScript function is a chain of six global single-character
`String.prototype.replace` calls.  `replaceChar t r` models one global
replace of the single character `t` by the string `r` (JavaScript's
`replace` scans the input once and never rescans replacement text, which
is exactly this recursion). -/

def replaceChar (t : Char) (r : List Char) : List Char → List Char
  | [] => []
  | c :: cs => (if c = t then r else [c]) ++ replaceChar t r cs

/-- The six replace passes of `sanitizeForAppleScript`, in source order:
backslash, double quote, single quote (close-quote / quote / re-open
idiom), newline, carriage return, tab. -/
def sanitizeList (s : List Char) : List Char :=
  replaceChar tabC [bsC, 't']
    (replaceChar crC [bsC, 'r']
      (replaceChar nlC [bsC, 'n']
        (replaceChar sqC [sqC, dqC, sqC, dqC, sqC]
          (replaceChar dqC [bsC, dqC]
            (replaceChar bsC [bsC, bsC] s)))))

/-- Function `sanitizeForAppleScript` from applescript.ts: the falsy guard
(`if (!input) return ''`) followed by the six replace passes. -/
def sanitizeForAppleScript (s : String) : String :=
  if s = "" then "" else ⟨sanitizeList s.data⟩

/-- Per-character escape table: what one input character contributes to
the sanitized output.  Spelled from the spec's description of the six
transformations (backslash doubled, quote backslash-escaped, single
quote turned into the close/concatenate/reopen idiom, NL/CR/TAB turned
into their two-character escape forms, everything else untouched). -/
def escChar (c : Char) : List Char :=
  if c = bsC then [bsC, bsC]
  else if c = dqC then [bsC, dqC]
  else if c = sqC then [sqC, dqC, sqC, dqC, sqC]
  else if c = nlC then [bsC, 'n']
  else if c = crC then [bsC, 'r']
  else if c = tabC then [bsC, 't']
  else [c]

/-- Character-wise escaping of a whole string. -/
def escapeAll : List Char → List Char
  | [] => []
  | c :: cs => escChar c ++ escapeAll cs

theorem replaceChar_append (t : Char) (r xs ys : List Char) :
    replaceChar t r (xs ++ ys) = replaceChar t r xs ++ replaceChar t r ys := by
  induction xs with
  | nil => rfl
  | cons c cs ih => simp [replaceChar, ih]

theorem sanitizeList_append (xs ys : List Char) :
    sanitizeList (xs ++ ys) = sanitizeList xs ++ sanitizeList ys := by
  simp [sanitizeList, replaceChar_append]

theorem sanitizeList_singleton (c : Char) :
    sanitizeList [c] = escChar c := by
  by_cases h1 : c = bsC
  · subst h1; rfl
  by_cases h2 : c = dqC
  · subst h2; rfl
  by_cases h3 : c = sqC
  · subst h3; rfl
  by_cases h4 : c = nlC
  · subst h4; rfl
  by_cases h5 : c = crC
  · subst h5; rfl
  by_cases h6 : c = tabC
  · subst h6; rfl
  · simp [sanitizeList, replaceChar, escChar, h1, h2, h3, h4, h5, h6]

theorem sanitizeList_cons (c : Char) (s : List Char) :
    sanitizeList (c :: s) = escChar c ++ sanitizeList s := by
  have h : c :: s = [c] ++ s := rfl
  rw [h, sanitizeList_append, sanitizeList_singleton]

/-- The six sequential passes fuse into one character-wise pass: the
content of the mandated transformation order. -/
theorem sanitizeList_eq_escapeAll (s : List Char) :
    sanitizeList s = escapeAll s := by
  induction s with
  | nil => rfl
  | cons c cs ih => rw [sanitizeList_cons, escapeAll, ih]

/-! ## Decoding the escape forms back ("a test double that just returns
its literal argument"): one left-to-right scan that reverses the
backslash escapes and the single-quote concatenation idiom. -/

def decodeEscapes : List Char → List Char
  | [] => []
  | c :: cs =>
    if c = sqC then
      match _h : cs with
      | d1 :: d2 :: d3 :: d4 :: rest =>
        if d1 = dqC ∧ d2 = sqC ∧ d3 = dqC ∧ d4 = sqC then
          sqC :: decodeEscapes rest
        else c :: decodeEscapes cs
      | _ => c :: decodeEscapes cs
    else if c = bsC then
      match _h : cs with
      | d :: rest =>
        if d = bsC then bsC :: decodeEscapes rest
        else if d = dqC then dqC :: decodeEscapes rest
        else if d = 'n' then nlC :: decodeEscapes rest
        else if d = 'r' then crC :: decodeEscapes rest
        else if d = 't' then tabC :: decodeEscapes rest
        else c :: decodeEscapes cs
      | [] => [c]
    else c :: decodeEscapes cs
termination_by l => l.length
decreasing_by all_goals (subst_vars; simp only [List.length_cons]; omega)

def decodeEscapesStr (s : String) : String :=
  ⟨decodeEscapes s.data⟩

theorem decodeEscapes_escChar (c : Char) (rest : List Char) :
    decodeEscapes (escChar c ++ rest) = c :: decodeEscapes rest := by
  by_cases h1 : c = bsC
  · subst h1
    rw [show escChar bsC ++ rest = bsC :: bsC :: rest from by simp +decide [escChar],
      decodeEscapes.eq_def]
    simp +decide
  by_cases h2 : c = dqC
  · subst h2
    rw [show escChar dqC ++ rest = bsC :: dqC :: rest from by simp +decide [escChar],
      decodeEscapes.eq_def]
    simp +decide
  by_cases h3 : c = sqC
  · subst h3
    rw [show escChar sqC ++ rest = sqC :: dqC :: sqC :: dqC :: sqC :: rest from by
        simp +decide [escChar],
      decodeEscapes.eq_def]
    simp +decide
  by_cases h4 : c = nlC
  · subst h4
    rw [show escChar nlC ++ rest = bsC :: 'n' :: rest from by simp +decide [escChar],
      decodeEscapes.eq_def]
    simp +decide
  by_cases h5 : c = crC
  · subst h5
    rw [show escChar crC ++ rest = bsC :: 'r' :: rest from by simp +decide [escChar],
      decodeEscapes.eq_def]
    simp +decide
  by_cases h6 : c = tabC
  · subst h6
    rw [show escChar tabC ++ rest = bsC :: 't' :: rest from by simp +decide [escChar],
      decodeEscapes.eq_def]
    simp +decide
  · rw [show escChar c ++ rest = c :: rest from by simp [escChar, h1, h2, h3, h4, h5, h6],
      decodeEscapes.eq_def]
    simp [h1, h3]

theorem decodeEscapes_sanitizeList (s : List Char) :
    decodeEscapes (sanitizeList s) = s := by
  induction s with
  | nil => simp [sanitizeList, replaceChar, decodeEscapes]
  | cons c cs ih =>
    rw [sanitizeList_cons, decodeEscapes_escChar, ih]

/-! ## Unescaped double quotes

`hasUnescapedQuoteAux esc l` scans `l`; `esc` records whether the
current position is escaped by an immediately preceding odd run of
backslashes.  It returns `true` iff some double quote in `l` is not
backslash-escaped. -/

def hasUnescapedQuoteAux : Bool → List Char → Bool
  | _, [] => false
  | esc, c :: cs =>
    if c = bsC then hasUnescapedQuoteAux (!esc) cs
    else if c = dqC then
      if esc then hasUnescapedQuoteAux false cs else true
    else hasUnescapedQuoteAux false cs

def hasUnescapedQuote (s : List Char) : Bool :=
  hasUnescapedQuoteAux false s

/-! ## JavaScript `String.prototype.trim` and `split(',')`

`trim` removes leading and trailing whitespace; we model the ASCII
whitespace characters plus NBSP (the code only ever meets AppleScript
output, whose padding is spaces and line breaks). -/

def isJsWs (c : Char) : Bool :=
  c == ' ' || c == tabC || c == nlC || c == crC ||
    c == Char.ofNat 11 || c == Char.ofNat 12 || c == Char.ofNat 160

def jsTrim (l : List Char) : List Char :=
  List.rdropWhile isJsWs (List.dropWhile isJsWs l)

def jsTrimStr (s : String) : String :=
  ⟨jsTrim s.data⟩

/-- Model of `String.prototype.split` at the comma separator: the empty string gives one empty
piece, every comma opens a new piece. -/
def splitOnComma : List Char → List (List Char)
  | [] => [[]]
  | c :: cs =>
    if c = commaC then [] :: splitOnComma cs
    else
      match splitOnComma cs with
      | [] => [[c]]
      | p :: ps => (c :: p) :: ps

def splitOnCommaStr (s : String) : List String :=
  (splitOnComma s.data).map fun l => (⟨l⟩ : String)

theorem jsTrim_idem (l : List Char) : jsTrim (jsTrim l) = jsTrim l := by
  unfold jsTrim
  have hA : List.dropWhile isJsWs (List.dropWhile isJsWs l) =
      List.dropWhile isJsWs l :=
    List.dropWhile_idempotent isJsWs l
  have hpre : List.rdropWhile isJsWs (List.dropWhile isJsWs l) <+:
      List.dropWhile isJsWs l := List.rdropWhile_prefix _ _
  have hfix : List.dropWhile isJsWs
      (List.rdropWhile isJsWs (List.dropWhile isJsWs l)) =
      List.rdropWhile isJsWs (List.dropWhile isJsWs l) := by
    rw [List.dropWhile_eq_self_iff]
    intro hl
    have hlen : 0 < (List.dropWhile isJsWs l).length :=
      lt_of_lt_of_le hl hpre.length_le
    have hhead := (List.dropWhile_eq_self_iff.mp hA) hlen
    simpa [List.get_eq_getElem, hpre.getElem hl] using hhead
  rw [hfix, List.rdropWhile_idempotent]

theorem jsTrimStr_idem (s : String) : jsTrimStr (jsTrimStr s) = jsTrimStr s := by
  simp [jsTrimStr, jsTrim_idem]

theorem jsTrim_nil : jsTrim [] = [] := rfl

theorem jsTrim_ne_nil_of_mem {c : Char} {l : List Char}
    (hc : c ∈ l) (hw : isJsWs c = false) : jsTrim l ≠ [] := by
  intro hnil
  have hall : ∀ x ∈ List.dropWhile isJsWs l, isJsWs x = true := by
    have := List.rdropWhile_eq_nil_iff.mp hnil
    simpa using this
  have hsplit : List.takeWhile isJsWs l ++ List.dropWhile isJsWs l = l :=
    List.takeWhile_append_dropWhile isJsWs l
  rcases List.mem_append.mp (by rw [hsplit]; exact hc) with hmem | hmem
  · exact absurd (List.mem_takeWhile_imp hmem) (by simp [hw])
  · exact absurd (hall c hmem) (by simp [hw])

theorem splitOnComma_ne_nil (l : List Char) : splitOnComma l ≠ [] := by
  cases l with
  | nil => simp [splitOnComma]
  | cons c cs =>
    by_cases h : c = commaC
    · simp [splitOnComma, h]
    · simp only [splitOnComma, if_neg h]
      cases splitOnComma cs <;> simp

theorem splitOnComma_no_comma {l : List Char} (h : commaC ∉ l) :
    splitOnComma l = [l] := by
  induction l with
  | nil => rfl
  | cons c cs ih =>
    have hc : ¬c = commaC := fun hc => h (hc ▸ List.mem_cons_self c cs)
    have hcs : commaC ∉ cs := fun hm => h (List.mem_cons_of_mem c hm)
    simp [splitOnComma, hc, ih hcs]

theorem splitOnComma_append {a : List Char} (b : List Char)
    (h : commaC ∉ a) :
    splitOnComma (a ++ commaC :: b) = a :: splitOnComma b := by
  induction a with
  | nil => simp [splitOnComma]
  | cons c cs ih =>
    have hc : ¬c = commaC := fun hc => h (hc ▸ List.mem_cons_self c cs)
    have hcs : commaC ∉ cs := fun hm => h (List.mem_cons_of_mem c hm)
    simp [splitOnComma, hc, ih hcs]

/-! ## The executor (`runAppleScript`, applescript.ts lines 9-53)

The promise resolves on exactly one of two child-process events: the
`error` event (spawn failure) or the `exit` event (exit code, which
Node reports as `number | null`, plus the accumulated stdout/stderr
chunks).  `ProcEvent` is that resolving event; `runAppleScript` is the
outcome the handler builds from it. -/

structure AppleScriptResult where
  success : Bool
  output : String
  error : Option String
deriving DecidableEq, Repr

inductive ProcEvent where
  | spawnError (msg : String)
  | exited (code : Option Int) (stdoutChunks stderrChunks : List String)
deriving DecidableEq, Repr

/-- How JavaScript template interpolation prints the exit code. -/
def exitCodeText : Option Int → String
  | some n => toString n
  | none => "null"

def runAppleScript : ProcEvent → AppleScriptResult
  | .spawnError msg =>
    ⟨false, "", some ("Failed to execute AppleScript: " ++ msg)⟩
  | .exited code outs errs =>
    if code = some 0 then
      ⟨true, jsTrimStr (String.join outs), none⟩
    else
      ⟨false, "",
        some (if jsTrimStr (String.join errs) = "" then
                "AppleScript exited with code " ++ exitCodeText code
              else jsTrimStr (String.join errs))⟩

theorem runAppleScript_failure_output (ev : ProcEvent)
    (hf : (runAppleScript ev).success = false) :
    (runAppleScript ev).output = "" := by
  cases ev with
  | spawnError msg => rfl
  | exited code outs errs =>
    by_cases h : code = some 0
    · simp [runAppleScript, h] at hf
    · simp [runAppleScript, h]

/-! ## Result decoding, one function per operation
(appleNotesManager.ts).  Each function is the operation's handling of
the `AppleScriptResult` it received: the `if` chain of the source,
restricted to the data the outcome decides (thrown messages become
`Except.error`, the `{success, error}` records become `OpStatus`). -/

structure OpStatus where
  success : Bool
  error : Option String
deriving DecidableEq, Repr

/-- Decoder of `createNote` (lines 59-136).  `hasFolder` is whether the optional
`folder` argument was passed; `r1` is the outcome of the first script
and `r2` the outcome of the account-scoped retry script (consulted only
on the no-folder failure path, exactly as in the source). -/
def createNoteDecode (hasFolder : Bool) (r1 r2 : AppleScriptResult) :
    Except String Unit :=
  if r1.output = "folder not found" then
    Except.error "Specified folder not found"
  else if r1.success = false ∧ hasFolder = false then
    if r2.success = false then Except.error "Failed to create note"
    else Except.ok ()
  else if r1.success = false then Except.error "Failed to create note"
  else Except.ok ()

/-- Decoder of `searchNotes` (lines 143-185): failure throws, empty or
whitespace-only output is an empty list, otherwise split on commas,
drop empty pieces, trim each piece (the decoded value is the list of
note titles). -/
def searchNotesDecode (r : AppleScriptResult) : Except String (List String) :=
  if r.success = false then Except.error "Failed to search notes"
  else if r.output = "" then Except.ok []
  else if jsTrimStr r.output = "" then Except.ok []
  else
    Except.ok (((splitOnCommaStr r.output).filter fun t => t ≠ "").map jsTrimStr)

/-- Decoder of `getNoteContent` (lines 192-211). -/
def getNoteContentDecode (r : AppleScriptResult) : Except String String :=
  if r.success = false then Except.error "Failed to get note content"
  else Except.ok r.output

/-- Decoder of `editNote` (lines 219-273), the `{success, error}` part. -/
def editNoteDecode (r : AppleScriptResult) : OpStatus :=
  if r.success = false then ⟨false, some "Failed to update note"⟩
  else if r.output = "not found" then ⟨false, some "Note not found"⟩
  else ⟨true, none⟩

/-- Decoder of `deleteNote` (lines 280-324). -/
def deleteNoteDecode (r : AppleScriptResult) : OpStatus :=
  if r.success = false then ⟨false, some "Failed to delete note"⟩
  else if r.output = "not found" then ⟨false, some "Note not found"⟩
  else ⟨true, none⟩

/-- Decoder of `moveNote` (lines 371-438). -/
def moveNoteDecode (r : AppleScriptResult) : OpStatus :=
  if r.success = false then ⟨false, some "Failed to move note"⟩
  else if r.output = "folder not found" then
    ⟨false, some "Target folder not found"⟩
  else if r.output = "note not found" then ⟨false, some "Note not found"⟩
  else ⟨true, none⟩

/-- Decoder of `getFolders` (lines 330-363): like `searchNotes` but the source
trims first and then drops empty names. -/
def getFoldersDecode (r : AppleScriptResult) : Except String (List String) :=
  if r.success = false then Except.error "Failed to get folders"
  else if r.output = "" then Except.ok []
  else if jsTrimStr r.output = "" then Except.ok []
  else
    Except.ok (((splitOnCommaStr r.output).map jsTrimStr).filter fun t => t ≠ "")

/-- Decoder of `getAccounts` (lines 29-49): no empty-output guard, trim then drop
empty names. -/
def getAccountsDecode (r : AppleScriptResult) : Except String (List String) :=
  if r.success = false then Except.error "Failed to get accounts"
  else
    Except.ok (((splitOnCommaStr r.output).map jsTrimStr).filter fun t => t ≠ "")

/-- An ordered sentinel table: the first matching sentinel decides, a
later entry is only consulted when every earlier one failed to match. -/
def decodeSentinels (dflt : OpStatus) :
    List (String × OpStatus) → String → OpStatus
  | [], _ => dflt
  | (s, v) :: rest, out =>
    if out = s then v else decodeSentinels dflt rest out

/-! ## The claims -/

/-- C1.  The claim states that for every input string the sanitized
result contains no unescaped double quote.  It is false on the code:
the single-quote replacement inserts the shell-style idiom
quote/doublequote/quote/doublequote/quote, whose two double quotes are
not backslash-escaped, so a single quote in the input closes the
surrounding AppleScript string literal early.  This theorem evaluates
the code at the failing input (the one-character string consisting of
one single quote). -/
theorem c1_single_quote_gives_unescaped_quote :
    sanitizeForAppleScript ⟨[sqC]⟩ = ⟨[sqC, dqC, sqC, dqC, sqC]⟩ ∧
    hasUnescapedQuote (sanitizeForAppleScript ⟨[sqC]⟩).data = true := by
  constructor <;> decide

/-- C2.  Round-trip: for every input string, embedding the sanitized
text in the string-literal position and reversing the escape forms
(the backslash escapes and the single-quote concatenation idiom, one
left-to-right scan) restores the original string exactly. -/
theorem c2_round_trip (s : String) :
    decodeEscapesStr (sanitizeForAppleScript s) = s := by
  by_cases h : s = ""
  · subst h
    simp [decodeEscapesStr, sanitizeForAppleScript, decodeEscapes]
  · unfold sanitizeForAppleScript decodeEscapesStr
    rw [if_neg h]
    show (⟨decodeEscapes (sanitizeList s.data)⟩ : String) = s
    rw [decodeEscapes_sanitizeList]

/-- C3.  The sanitizer's six passes run in the source order (backslash,
double quote, single quote, newline, carriage return, tab), which is
exactly what makes the whole function equal to one character-wise pass
through the escape table `escChar` (escaping in any other order would
re-escape the backslashes that the later passes introduce); and the
empty (falsy) input maps to the empty string, not an error. -/
theorem c3_escape_order_and_empty :
    sanitizeForAppleScript "" = "" ∧
    ∀ s : String, sanitizeForAppleScript s = ⟨escapeAll s.data⟩ := by
  constructor
  · rfl
  · intro s
    by_cases h : s = ""
    · subst h; rfl
    · unfold sanitizeForAppleScript
      rw [if_neg h, sanitizeList_eq_escapeAll]

/-- C4.  The executor's outcome mapping: exit code 0 gives success with
the trimmed concatenated standard output (even if empty); a non-zero
exit code gives failure with empty output and the trimmed standard
error, or, when that is empty, a fallback message naming the exit code;
a spawn failure gives failure with a message describing it. -/
theorem c4_outcome_mapping :
    (∀ outs errs, runAppleScript (ProcEvent.exited (some 0) outs errs) =
        ⟨true, jsTrimStr (String.join outs), none⟩) ∧
    (∀ (n : Int), n ≠ 0 → ∀ outs errs,
        runAppleScript (ProcEvent.exited (some n) outs errs) =
          ⟨false, "",
            some (if jsTrimStr (String.join errs) = "" then
                    "AppleScript exited with code " ++ toString n
                  else jsTrimStr (String.join errs))⟩) ∧
    (∀ msg, runAppleScript (ProcEvent.spawnError msg) =
        ⟨false, "", some ("Failed to execute AppleScript: " ++ msg)⟩) := by
  refine ⟨fun outs errs => by simp [runAppleScript], fun n hn outs errs => ?_,
    fun msg => rfl⟩
  have h : (some n : Option Int) ≠ some 0 := by simpa using hn
  simp [runAppleScript, h, exitCodeText]

theorem c4_outcome_mapping_witness :
    runAppleScript (ProcEvent.exited (some 1) [] []) =
      ⟨false, "",
        some (if jsTrimStr (String.join []) = "" then
                "AppleScript exited with code " ++ toString (1 : Int)
              else jsTrimStr (String.join []))⟩ :=
  c4_outcome_mapping.2.1 1 (by decide) [] []

/-- C6, counterexample.  The claim quantifies over every
`CommandOutcome` and says a failed outcome always decodes to the hard
failure, with sentinel comparison happening only on success.
`createNote` compares the folder sentinel before looking at `success`,
so the failed outcome whose output is the folder sentinel decodes to
the not-found result instead of the generic hard failure. -/
theorem c6_counterexample :
    createNoteDecode true ⟨false, "folder not found", none⟩ ⟨false, "", none⟩ =
      Except.error "Specified folder not found" ∧
    createNoteDecode true ⟨false, "folder not found", none⟩ ⟨false, "", none⟩ ≠
      Except.error "Failed to create note" := by
  have h1 : createNoteDecode true ⟨false, "folder not found", none⟩
      ⟨false, "", none⟩ = Except.error "Specified folder not found" := rfl
  refine ⟨h1, ?_⟩
  rw [h1]
  intro hcontra
  have h2 : "Specified folder not found" = "Failed to create note" :=
    Except.error.inj hcontra
  exact absurd h2 (by decide)

/-- C6, amended.  Restricted to outcomes the executor can actually
produce (a failed `runAppleScript` outcome always carries empty
output), every operation maps a failed outcome to its hard-failure
result — never a not-found result and never a success result — and for
`createNote` without a folder this holds provided the account-retry
outcome also fails, as the retry is the one deliberate exception. -/
theorem c6_amended_failure_is_hard_failure (ev : ProcEvent)
    (hf : (runAppleScript ev).success = false) :
    searchNotesDecode (runAppleScript ev) =
      Except.error "Failed to search notes" ∧
    getNoteContentDecode (runAppleScript ev) =
      Except.error "Failed to get note content" ∧
    getFoldersDecode (runAppleScript ev) =
      Except.error "Failed to get folders" ∧
    getAccountsDecode (runAppleScript ev) =
      Except.error "Failed to get accounts" ∧
    editNoteDecode (runAppleScript ev) = ⟨false, some "Failed to update note"⟩ ∧
    deleteNoteDecode (runAppleScript ev) =
      ⟨false, some "Failed to delete note"⟩ ∧
    moveNoteDecode (runAppleScript ev) = ⟨false, some "Failed to move note"⟩ ∧
    (∀ r2, createNoteDecode true (runAppleScript ev) r2 =
        Except.error "Failed to create note") ∧
    (∀ r2, r2.success = false → createNoteDecode false (runAppleScript ev) r2 =
        Except.error "Failed to create note") := by
  have ho := runAppleScript_failure_output ev hf
  refine ⟨by simp [searchNotesDecode, hf], by simp [getNoteContentDecode, hf],
    by simp [getFoldersDecode, hf], by simp [getAccountsDecode, hf],
    by simp [editNoteDecode, hf], by simp [deleteNoteDecode, hf],
    by simp [moveNoteDecode, hf], fun r2 => ?_, fun r2 h2 => ?_⟩
  · simp +decide [createNoteDecode, ho, hf]
  · simp +decide [createNoteDecode, ho, hf, h2]

theorem c6_amended_failure_is_hard_failure_witness :
    searchNotesDecode (runAppleScript (ProcEvent.spawnError "ENOENT")) =
      Except.error "Failed to search notes" :=
  (c6_amended_failure_is_hard_failure (ProcEvent.spawnError "ENOENT") rfl).1

/-- C7.  On every successful outcome, `moveNote` decodes by walking an
ordered sentinel table in which "folder not found" precedes
"note not found": the folder sentinel is compared, and decides, before
the note sentinel is consulted. -/
theorem c7_folder_sentinel_first (r : AppleScriptResult)
    (hs : r.success = true) :
    moveNoteDecode r =
      decodeSentinels ⟨true, none⟩
        [("folder not found", ⟨false, some "Target folder not found"⟩),
         ("note not found", ⟨false, some "Note not found"⟩)] r.output := by
  simp [moveNoteDecode, decodeSentinels, hs]

theorem c7_folder_sentinel_first_witness :
    moveNoteDecode ⟨true, "folder not found", none⟩ =
      decodeSentinels ⟨true, none⟩
        [("folder not found", ⟨false, some "Target folder not found"⟩),
         ("note not found", ⟨false, some "Note not found"⟩)]
        (AppleScriptResult.output ⟨true, "folder not found", none⟩) :=
  c7_folder_sentinel_first ⟨true, "folder not found", none⟩ rfl

/-- C8.  A successful outcome with empty or whitespace-only output
decodes to the empty collection in `searchNotes` and `getFolders` (not
to a one-element collection holding the empty string), and every
element either operation returns is already trimmed (trimming it again
changes nothing). -/
theorem c8_empty_list_and_trimmed_elements :
    (∀ r : AppleScriptResult, r.success = true → jsTrimStr r.output = "" →
        searchNotesDecode r = Except.ok [] ∧
        getFoldersDecode r = Except.ok []) ∧
    (∀ r ts, searchNotesDecode r = Except.ok ts →
        ∀ t ∈ ts, jsTrimStr t = t) ∧
    (∀ r ts, getFoldersDecode r = Except.ok ts →
        ∀ t ∈ ts, jsTrimStr t = t) := by
  refine ⟨fun r hs ht => ⟨?_, ?_⟩, fun r ts h t htm => ?_, fun r ts h t htm => ?_⟩
  · simp [searchNotesDecode, hs, ht]
  · simp [getFoldersDecode, hs, ht]
  · unfold searchNotesDecode at h
    split_ifs at h
    all_goals first
      | exact Except.noConfusion h
      | (obtain rfl := Except.ok.inj h
         first
           | exact absurd htm (List.not_mem_nil t)
           | (obtain ⟨u, hu, rfl⟩ := List.mem_map.mp htm
              exact jsTrimStr_idem u))
  · unfold getFoldersDecode at h
    split_ifs at h
    all_goals first
      | exact Except.noConfusion h
      | (obtain rfl := Except.ok.inj h
         first
           | exact absurd htm (List.not_mem_nil t)
           | (obtain ⟨u, hu, rfl⟩ :=
                List.mem_map.mp (List.mem_of_mem_filter htm)
              exact jsTrimStr_idem u))

theorem c8_empty_list_and_trimmed_elements_witness :
    searchNotesDecode ⟨true, " ", none⟩ = Except.ok [] :=
  (c8_empty_list_and_trimmed_elements.1 ⟨true, " ", none⟩ rfl (by decide)).1

/-- C9.  No operation's result depends on the raw error text the
executor captured (two failed outcomes differing only in their error
text decode identically, so the raw diagnostic can never surface), and
every operation maps a process-layer failure (failed outcome with
empty output) to its fixed, generic, operation-specific message. -/
theorem c9_error_text_never_surfaced :
    (∀ (b : Bool) (o : String) (e1 e2 : Option String),
        searchNotesDecode ⟨b, o, e1⟩ = searchNotesDecode ⟨b, o, e2⟩ ∧
        getNoteContentDecode ⟨b, o, e1⟩ = getNoteContentDecode ⟨b, o, e2⟩ ∧
        getFoldersDecode ⟨b, o, e1⟩ = getFoldersDecode ⟨b, o, e2⟩ ∧
        getAccountsDecode ⟨b, o, e1⟩ = getAccountsDecode ⟨b, o, e2⟩ ∧
        editNoteDecode ⟨b, o, e1⟩ = editNoteDecode ⟨b, o, e2⟩ ∧
        deleteNoteDecode ⟨b, o, e1⟩ = deleteNoteDecode ⟨b, o, e2⟩ ∧
        moveNoteDecode ⟨b, o, e1⟩ = moveNoteDecode ⟨b, o, e2⟩ ∧
        (∀ (hf b2 : Bool) (o2 : String) (e3 e4 : Option String),
            createNoteDecode hf ⟨b, o, e1⟩ ⟨b2, o2, e3⟩ =
              createNoteDecode hf ⟨b, o, e2⟩ ⟨b2, o2, e4⟩)) ∧
    (∀ e : Option String,
        searchNotesDecode ⟨false, "", e⟩ =
          Except.error "Failed to search notes" ∧
        getNoteContentDecode ⟨false, "", e⟩ =
          Except.error "Failed to get note content" ∧
        getFoldersDecode ⟨false, "", e⟩ =
          Except.error "Failed to get folders" ∧
        getAccountsDecode ⟨false, "", e⟩ =
          Except.error "Failed to get accounts" ∧
        editNoteDecode ⟨false, "", e⟩ = ⟨false, some "Failed to update note"⟩ ∧
        deleteNoteDecode ⟨false, "", e⟩ =
          ⟨false, some "Failed to delete note"⟩ ∧
        moveNoteDecode ⟨false, "", e⟩ = ⟨false, some "Failed to move note"⟩ ∧
        (∀ e2, createNoteDecode true ⟨false, "", e⟩ ⟨false, "", e2⟩ =
            Except.error "Failed to create note") ∧
        (∀ e2, createNoteDecode false ⟨false, "", e⟩ ⟨false, "", e2⟩ =
            Except.error "Failed to create note")) := by
  constructor
  · intro b o e1 e2
    exact ⟨rfl, rfl, rfl, rfl, rfl, rfl, rfl, fun hf b2 o2 e3 e4 => rfl⟩
  · intro e
    exact ⟨rfl, rfl, rfl, rfl, rfl, rfl, rfl, fun e2 => rfl, fun e2 => rfl⟩

/-- C10.  List decoding splits unconditionally on the comma character:
a successful outcome whose output is one entity name containing a
comma (comma-free, non-blank halves) is decoded by `searchNotes`,
`getFolders` and `getAccounts` as two separate entries. -/
theorem c10_comma_in_name_splits (a b : List Char)
    (ha : commaC ∉ a) (hb : commaC ∉ b)
    (hta : jsTrim a ≠ []) (htb : jsTrim b ≠ []) :
    searchNotesDecode ⟨true, ⟨a ++ commaC :: b⟩, none⟩ =
      Except.ok [⟨jsTrim a⟩, ⟨jsTrim b⟩] ∧
    getFoldersDecode ⟨true, ⟨a ++ commaC :: b⟩, none⟩ =
      Except.ok [⟨jsTrim a⟩, ⟨jsTrim b⟩] ∧
    getAccountsDecode ⟨true, ⟨a ++ commaC :: b⟩, none⟩ =
      Except.ok [⟨jsTrim a⟩, ⟨jsTrim b⟩] := by
  have hsplit : splitOnComma (a ++ commaC :: b) = [a, b] := by
    rw [splitOnComma_append b ha, splitOnComma_no_comma hb]
  have hmem : commaC ∈ a ++ commaC :: b :=
    List.mem_append_right a (List.mem_cons_self commaC b)
  have hws : isJsWs commaC = false := by decide
  have htrim : jsTrim (a ++ commaC :: b) ≠ [] :=
    jsTrim_ne_nil_of_mem hmem hws
  have hone : (⟨a ++ commaC :: b⟩ : String) ≠ "" := by
    intro hcontra
    have : a ++ commaC :: b = [] := congrArg String.data hcontra
    simp at this
  have htwo : jsTrimStr ⟨a ++ commaC :: b⟩ ≠ "" := by
    intro hcontra
    exact htrim (congrArg String.data hcontra)
  have hsplitStr : splitOnCommaStr ⟨a ++ commaC :: b⟩ =
      [⟨a⟩, ⟨b⟩] := by
    unfold splitOnCommaStr
    show (splitOnComma (a ++ commaC :: b)).map _ = _
    rw [hsplit]; rfl
  have hA : a ≠ [] := fun hcontra => hta (by simp [hcontra, jsTrim])
  have hB : b ≠ [] := fun hcontra => htb (by simp [hcontra, jsTrim])
  have hAs : (⟨a⟩ : String) ≠ "" := fun hcontra =>
    hA (congrArg String.data hcontra)
  have hBs : (⟨b⟩ : String) ≠ "" := fun hcontra =>
    hB (congrArg String.data hcontra)
  have hTa : jsTrimStr ⟨a⟩ = (⟨jsTrim a⟩ : String) := rfl
  have hTAs : jsTrimStr (⟨a⟩ : String) ≠ "" := fun hcontra =>
    hta (congrArg String.data hcontra)
  have hTBs : jsTrimStr (⟨b⟩ : String) ≠ "" := fun hcontra =>
    htb (congrArg String.data hcontra)
  refine ⟨?_, ?_, ?_⟩
  · simp [searchNotesDecode, hone, htwo, hsplitStr, hAs, hBs]
    exact ⟨rfl, rfl⟩
  · simp [getFoldersDecode, hone, htwo, hsplitStr, hTAs, hTBs]
    exact ⟨rfl, rfl⟩
  · simp [getAccountsDecode, hsplitStr, hTAs, hTBs]
    exact ⟨rfl, rfl⟩

theorem c10_comma_in_name_splits_witness :
    searchNotesDecode ⟨true, ⟨"ab".data ++ commaC :: " cd".data⟩, none⟩ =
      Except.ok [⟨jsTrim "ab".data⟩, ⟨jsTrim " cd".data⟩] :=
  (c10_comma_in_name_splits "ab".data " cd".data (by decide) (by decide)
    (by decide) (by decide)).1

end MCPNotes
